import Mathlib

/-!
Verification of the playground-sync prompt relay.

This file gives a shallow embedding, in Lean 4, of the core of the
`playground-sync` server (files `store.ts`, `server.ts`, `burst.ts`,
`cli.ts`, `types.ts`) and proves the testable properties stated in its
specification against that embedding.

Modelling conventions:
* JavaScript arrays of prompt records become Lean `List`s; `push` is
  append at the back, `shift` removes the head.
* `Date.now()` and `Math.random().toString(36).slice(2, 8)` are modelled
  as explicit parameters (`now : Nat`, `rand : String`) supplied by the
  environment at each call.
* Side effects are made explicit: an operation returns, next to its
  result, the new store contents and the list of statuses it broadcast
  over the SSE channel (`broadcastEvent` calls, in order).
* The single-threaded JavaScript event loop means every synchronous block
  of code runs without interleaving; a blocking operation such as
  `playground_watch` can only be interleaved with other work at its
  `await` points.  The watch/poll loops are therefore modelled as
  functions whose steps are the atomic blocks between `await`s.
-/

/-! ## Data model (`types.ts`) -/

/-- A prompt record, exactly the fields of `PlaygroundPrompt` in `types.ts`. -/
structure PlaygroundPrompt where
  id : String
  prompt : String
  url : String
  pathname : String
  timestamp : Nat
deriving DecidableEq, Repr

/-- The statuses broadcast over the `/events` SSE channel.  `received`
carries the id of the new record, as in
`broadcastEvent("status", \x7b status: "received", id: entry.id \x7d)`. -/
inductive Status where
  | received (id : String)
  | collecting
  | processing
  | done
  | ready
deriving DecidableEq, Repr

/-! ## The prompt store (`store.ts`) -/

/-- The store's backing array `private prompts: PlaygroundPrompt[]`. -/
abbrev PromptStore := List PlaygroundPrompt

/-- The id generation expression in `PromptStore.add`:
`` `p_${Date.now()}_${Math.random().toString(36).slice(2, 8)}` ``,
with the two environment-supplied values made explicit. -/
def mkId (now : Nat) (rand : String) : String :=
  "p_" ++ toString now ++ "_" ++ rand

/-- The input to `PromptStore.add`: the caller-supplied fields
(`Omit<PlaygroundPrompt, "id" | "timestamp">`) together with the two
environment values consumed by the call. -/
structure AddInput where
  prompt : String
  url : String
  pathname : String
  now : Nat
  rand : String
deriving DecidableEq, Repr

/-- The record built by `PromptStore.add` from its input. -/
def entryOf (i : AddInput) : PlaygroundPrompt :=
  { id := mkId i.now i.rand
    prompt := i.prompt
    url := i.url
    pathname := i.pathname
    timestamp := i.now }

namespace PromptStore

/-- `add`: builds the entry, pushes it to the back, returns it. -/
def add (s : PromptStore) (i : AddInput) : PlaygroundPrompt × PromptStore :=
  (entryOf i, s ++ [entryOf i])

/-- `getOldest`: `this.prompts[0]`, `undefined` when empty. -/
def getOldest (s : PromptStore) : Option PlaygroundPrompt :=
  s.head?

/-- `getAll`: `[...this.prompts]`, a snapshot copy. -/
def getAll (s : PromptStore) : List PlaygroundPrompt :=
  s

/-- `count`: `this.prompts.length`. -/
def count (s : PromptStore) : Nat :=
  s.length

/-- `clear`: `this.prompts = []`. -/
def clear (_ : PromptStore) : PromptStore :=
  []

/-- `removeOldest`: `this.prompts.shift()` — returns the front record (if
any) and the store without it. -/
def removeOldest (s : PromptStore) : Option PlaygroundPrompt × PromptStore :=
  (s.head?, s.tail)

end PromptStore

/-! ## Claim C1: FIFO discipline of the store

We model an arbitrary interleaving of `add` (enqueue) and `removeOldest`
(pop) calls and show that the popped records, in pop order, followed by
the records still in the store, are exactly the initial contents followed
by the enqueued records in enqueue order.  In particular, starting from
an empty store, the records returned by pops come back in exactly the
order they were enqueued, and no operation reorders entries. -/

/-- One store operation of the interleaved sequence. -/
inductive QOp where
  | enq (i : AddInput)
  | pop
deriving DecidableEq, Repr

/-- Run a sequence of operations against the store, via the store's own
`add` and `removeOldest`; returns the final store and the records the
pops returned, in pop order (pops on an empty store return nothing). -/
def runOps : List QOp → PromptStore → PromptStore × List PlaygroundPrompt
  | [], s => (s, [])
  | QOp.enq i :: ops, s => runOps ops (PromptStore.add s i).2
  | QOp.pop :: ops, s =>
      match PromptStore.removeOldest s with
      | (none, s') => runOps ops s'
      | (some p, s') =>
          let r := runOps ops s'
          (r.1, p :: r.2)

/-- The records enqueued by a sequence of operations, in enqueue order. -/
def enqueuedOf (ops : List QOp) : List PlaygroundPrompt :=
  ops.filterMap fun o =>
    match o with
    | QOp.enq i => some (entryOf i)
    | QOp.pop => none

theorem runOps_append_eq (ops : List QOp) :
    ∀ s : PromptStore, (runOps ops s).2 ++ (runOps ops s).1 = s ++ enqueuedOf ops := by
  induction ops with
  | nil => intro s; simp [runOps, enqueuedOf]
  | cons o ops ih =>
    intro s
    cases o with
    | enq i =>
      simp only [runOps, PromptStore.add]
      rw [ih]
      simp [enqueuedOf, List.filterMap_cons]
    | pop =>
      cases s with
      | nil =>
        simp only [runOps, PromptStore.removeOldest, List.head?_nil, List.tail_nil]
        rw [ih]
        simp [enqueuedOf, List.filterMap_cons]
      | cons p rest =>
        simp only [runOps, PromptStore.removeOldest, List.head?_cons, List.tail_cons]
        have h := ih rest
        simp only [List.cons_append]
        rw [h]
        simp [enqueuedOf, List.filterMap_cons]

/-- Claim C1: the queue is FIFO.  For every sequence of enqueues
interleaved with pops, the records returned by the pops, in the order
they were returned, followed by the records still pending, equal the
records enqueued in enqueue order (starting from an empty store).  So
pops return records in exactly enqueue order: enqueue appends at the
back, pop removes at the front, and nothing is ever reordered. -/
theorem fifo_queue (ops : List QOp) :
    (runOps ops []).2 ++ (runOps ops []).1 = enqueuedOf ops := by
  have h := runOps_append_eq ops []
  simpa using h

/-! ## The `POST /prompt` handlers (`server.ts` and `burst.ts`)

The request body is `JSON.parse`d; a parse failure is caught and answered
with 400.  The parsed payload's `prompt` field is checked by
`if (!prompt || typeof prompt !== "string")`: it must be a string and
truthy (non-empty).  `url` and `pathname` default through `||` to `""`
and `"/"` respectively.  We model the body after destructuring; `url` and
`pathname` are modelled as optional strings (the shapes the spec admits). -/

/-- The JavaScript value found in the payload's `prompt` field. -/
inductive PromptField where
  | absent
  | str (s : String)
  | nonString (truthy : Bool)
deriving DecidableEq, Repr

/-- A successfully parsed request payload, after destructuring. -/
structure PostBody where
  promptField : PromptField
  urlField : Option String
  pathField : Option String
deriving DecidableEq, Repr

/-- A request body: either `JSON.parse` throws, or it yields a payload. -/
inductive ReqBody where
  | malformed
  | parsed (b : PostBody)
deriving DecidableEq, Repr

/-- JavaScript `a || b` for an optional string `a` (absent and `""` are
falsy). -/
def jsOr (v : Option String) (dflt : String) : String :=
  match v with
  | none => dflt
  | some x => if x = "" then dflt else x

/-- The HTTP response of the `/prompt` handler: `200` with
`\x7b success: true \x7d` (plus `id` in interactive mode), or `400` with
an error message. -/
inductive HttpResp where
  | ok (id : Option String)
  | badRequest (msg : String)
deriving DecidableEq, Repr

/-- Whether the `prompt` field passes
`!(!prompt || typeof prompt !== "string")`. -/
def isValidPrompt : PromptField → Bool
  | PromptField.str p => !(p == "")
  | _ => false

/-- The `POST /prompt` handler of the interactive server (`server.ts`
lines 56–90): on a valid prompt it calls `store.add`, broadcasts
`status: received` with the new id, and answers
`200 \x7b success: true, id \x7d`; otherwise it answers 400 and touches
nothing.  Returns (response, new store, broadcasts in order). -/
def handlePostPrompt (body : ReqBody) (s : PromptStore) (now : Nat)
    (rand : String) : HttpResp × PromptStore × List Status :=
  match body with
  | ReqBody.malformed => (HttpResp.badRequest "Invalid JSON", s, [])
  | ReqBody.parsed pb =>
      match pb.promptField with
      | PromptField.str p =>
          if p = "" then (HttpResp.badRequest "prompt is required", s, [])
          else
            let r := PromptStore.add s
              ⟨p, jsOr pb.urlField "", jsOr pb.pathField "/", now, rand⟩
            (HttpResp.ok (some r.1.id), r.2, [Status.received r.1.id])
      | _ => (HttpResp.badRequest "prompt is required", s, [])

/-- The `POST /prompt` handler of the burst-mode server (`burst.ts`
lines 85–110): same validation and enqueue, but the success response is
`200 \x7b success: true \x7d` with no id, and no event is broadcast. -/
def handlePostPromptBurst (body : ReqBody) (s : PromptStore) (now : Nat)
    (rand : String) : HttpResp × PromptStore × List Status :=
  match body with
  | ReqBody.malformed => (HttpResp.badRequest "Invalid JSON", s, [])
  | ReqBody.parsed pb =>
      match pb.promptField with
      | PromptField.str p =>
          if p = "" then (HttpResp.badRequest "prompt is required", s, [])
          else
            let r := PromptStore.add s
              ⟨p, jsOr pb.urlField "", jsOr pb.pathField "/", now, rand⟩
            (HttpResp.ok none, r.2, [])
      | _ => (HttpResp.badRequest "prompt is required", s, [])

/-- Claim C3 (counterexample): the claim quantifies over every
`POST /prompt` request, and its sources include the burst-mode handler;
but on a valid body the burst-mode handler enqueues the record yet
broadcasts no `received` event and returns no id in its 200 response. -/
theorem burst_post_no_event_no_id :
    (handlePostPromptBurst
        (ReqBody.parsed ⟨PromptField.str "x", none, none⟩) [] 5 "abcdef")
      = (HttpResp.ok none,
         [⟨"p_5_abcdef", "x", "", "/", 5⟩], []) := by
  rfl

/-- Claim C3 (amended): for every `POST /prompt` request, in either
server: a malformed body or a body without a non-empty string `prompt`
yields a 400 with an error payload, no store mutation and no broadcast.
On a valid body both handlers enqueue the new record at the back; the
interactive server broadcasts `received` with the new record's id and
answers `200` with success and that id, while the burst-mode server
broadcasts nothing and answers `200` with success and no id. -/
theorem post_prompt_contract (body : ReqBody) (s : PromptStore) (now : Nat)
    (rand : String) :
    (body = ReqBody.malformed →
      handlePostPrompt body s now rand = (HttpResp.badRequest "Invalid JSON", s, [])
      ∧ handlePostPromptBurst body s now rand
          = (HttpResp.badRequest "Invalid JSON", s, []))
    ∧ (∀ pb, body = ReqBody.parsed pb → isValidPrompt pb.promptField = false →
      handlePostPrompt body s now rand
          = (HttpResp.badRequest "prompt is required", s, [])
      ∧ handlePostPromptBurst body s now rand
          = (HttpResp.badRequest "prompt is required", s, []))
    ∧ (∀ pb p, body = ReqBody.parsed pb → pb.promptField = PromptField.str p →
        p ≠ "" →
      handlePostPrompt body s now rand
          = (HttpResp.ok (some (mkId now rand)),
             s ++ [⟨mkId now rand, p, jsOr pb.urlField "", jsOr pb.pathField "/", now⟩],
             [Status.received (mkId now rand)])
      ∧ handlePostPromptBurst body s now rand
          = (HttpResp.ok none,
             s ++ [⟨mkId now rand, p, jsOr pb.urlField "", jsOr pb.pathField "/", now⟩],
             [])) := by
  refine ⟨?_, ?_, ?_⟩
  · rintro rfl
    exact ⟨rfl, rfl⟩
  · rintro pb rfl hinv
    cases hpf : pb.promptField with
    | absent => simp [handlePostPrompt, handlePostPromptBurst, hpf]
    | nonString t => simp [handlePostPrompt, handlePostPromptBurst, hpf]
    | str p =>
      rw [hpf] at hinv
      simp only [isValidPrompt, Bool.not_eq_false'] at hinv
      have hp : p = "" := by simpa using hinv
      subst hp
      simp [handlePostPrompt, handlePostPromptBurst, hpf]
  · rintro pb p rfl hpf hne
    simp [handlePostPrompt, handlePostPromptBurst, hpf, hne, PromptStore.add, entryOf]

/-- Witness for the amended C3 contract at concrete inputs: a valid body
on an empty store, in both servers. -/
theorem post_prompt_contract_witness :
    handlePostPrompt (ReqBody.parsed ⟨PromptField.str "add a footer", none, some "/design"⟩)
        [] 7 "zzz111"
      = (HttpResp.ok (some "p_7_zzz111"),
         [⟨"p_7_zzz111", "add a footer", "", "/design", 7⟩],
         [Status.received "p_7_zzz111"])
    ∧ handlePostPromptBurst (ReqBody.parsed ⟨PromptField.str "add a footer", none, some "/design"⟩)
        [] 7 "zzz111"
      = (HttpResp.ok none,
         [⟨"p_7_zzz111", "add a footer", "", "/design", 7⟩], []) := by
  have h := (post_prompt_contract
      (ReqBody.parsed ⟨PromptField.str "add a footer", none, some "/design"⟩)
      [] 7 "zzz111").2.2 ⟨PromptField.str "add a footer", none, some "/design"⟩
      "add a footer" rfl rfl (by decide)
  exact h

/-! ## Listener bind errors (`server.ts` lines 96–109, `burst.ts` lines
116–131, `cli.ts` lines 41–52)

Both `createHttpServer` functions wrap `server.listen` in a promise and
install an error handler.  The interactive server (`server.ts`) treats
`EADDRINUSE` specially: it logs and calls `resolve()`, so `startServer`
proceeds (the MCP server still starts); every other error is `reject`ed.
The burst server `reject`s in both branches.  In `cli.ts`, a rejection
reaches `.catch(...)`, which calls `process.exit(1)`. -/

/-- Outcome of the `createHttpServer` promise. -/
inductive PromiseOutcome where
  | resolved
  | rejected (e : String)
deriving DecidableEq, Repr

/-- Fate of the whole process after startup. -/
inductive ServerFate where
  | continues
  | exitsNonZero
deriving DecidableEq, Repr

/-- The `server.on("error", ...)` handler of `server.ts` applied to the
error's `code`. -/
def serverOnError (code : String) : PromiseOutcome :=
  if code = "EADDRINUSE" then PromiseOutcome.resolved
  else PromiseOutcome.rejected code

/-- The `server.on("error", ...)` handler of `burst.ts`. -/
def burstOnError (code : String) : PromiseOutcome :=
  if code = "EADDRINUSE" then PromiseOutcome.rejected "Port in use"
  else PromiseOutcome.rejected code

/-- `cli.ts`: `startServer(...).catch((err) => \x7b ... process.exit(1) \x7d)`
(and identically for `startBurstMode`): a rejected startup exits with a
non-zero status, a resolved one leaves the process running. -/
def cliFate : PromiseOutcome → ServerFate
  | PromiseOutcome.resolved => ServerFate.continues
  | PromiseOutcome.rejected _ => ServerFate.exitsNonZero

/-- Fate of the interactive-mode process when `listen` reports an error
with the given code. -/
def interactiveFate (code : String) : ServerFate :=
  cliFate (serverOnError code)

/-- Fate of the burst-mode process when `listen` reports an error with
the given code. -/
def burstFate (code : String) : ServerFate :=
  cliFate (burstOnError code)

/-- Claim C4 (counterexample): when the listener cannot bind because the
port is in use (`EADDRINUSE`), the interactive-mode process does NOT exit
non-zero — `server.ts` logs and resolves the startup promise, so the
process continues running. -/
theorem port_in_use_not_fatal_interactive :
    interactiveFate "EADDRINUSE" = ServerFate.continues
    ∧ interactiveFate "EADDRINUSE" ≠ ServerFate.exitsNonZero := by
  exact ⟨rfl, by decide⟩

/-- Claim C4 (amended): in interactive mode a port-in-use bind failure is
tolerated — the handler logs a warning and resolves, and the process
continues (the MCP server still starts); any other listener error is
fatal with a non-zero exit.  (In burst mode, by contrast, port-in-use is
fatal.) -/
theorem listen_error_fates (code : String) :
    interactiveFate "EADDRINUSE" = ServerFate.continues
    ∧ (code ≠ "EADDRINUSE" → interactiveFate code = ServerFate.exitsNonZero)
    ∧ burstFate "EADDRINUSE" = ServerFate.exitsNonZero := by
  refine ⟨rfl, ?_, rfl⟩
  intro h
  simp [interactiveFate, serverOnError, cliFate, h]

/-- Witness for the amended C4 at a concrete non-`EADDRINUSE` error
(`EACCES`, e.g. binding a privileged port). -/
theorem listen_error_fates_witness :
    interactiveFate "EADDRINUSE" = ServerFate.continues
    ∧ interactiveFate "EACCES" = ServerFate.exitsNonZero := by
  have h := listen_error_fates "EACCES"
  exact ⟨h.1, h.2.1 (by decide)⟩

/-! ## The `playground_get_prompt` tool (`server.ts` lines 168–189)

`new Date(p.timestamp).toLocaleTimeString()` is locale- and
timezone-dependent; it is modelled by an abstract formatting function
`fmtTime` passed as a parameter. -/

/-- The markdown text returned for a delivered prompt, shared verbatim by
`playground_get_prompt` and `playground_watch`:
`# Playground Prompt ... **Source:** prompt.url || prompt.pathname ...`. -/
def formatPromptText (fmtTime : Nat → String) (p : PlaygroundPrompt) : String :=
  "# Playground Prompt\n\n**Source:** "
    ++ (if p.url = "" then p.pathname else p.url)
    ++ "\n**Received:** " ++ fmtTime p.timestamp
    ++ "\n\n---\n\n" ++ p.prompt

/-- `playground_get_prompt`: reads `store.getOldest()`; when a record is
pending it broadcasts `processing` and returns the formatted record
WITHOUT removing it; when the store is empty it returns the explicit
none-pending text and broadcasts nothing.  Returns (text, broadcasts,
store afterwards). -/
def playground_get_prompt (fmtTime : Nat → String) (s : PromptStore) :
    String × List Status × PromptStore :=
  match PromptStore.getOldest s with
  | none => ("No pending prompts from playgrounds.", [], s)
  | some p => (formatPromptText fmtTime p, [Status.processing], s)

/-- Claim C7: `playground_get_prompt` never mutates the store — contents
and count are unchanged in both branches.  On a non-empty store it
returns the oldest record formatted with provenance and broadcasts a
single `processing` status; on an empty store it returns the explicit
none-pending text and broadcasts nothing. -/
theorem get_prompt_contract (fmtTime : Nat → String) (s : PromptStore) :
    (playground_get_prompt fmtTime s).2.2 = s
    ∧ PromptStore.count (playground_get_prompt fmtTime s).2.2 = PromptStore.count s
    ∧ (∀ p rest, s = p :: rest →
        playground_get_prompt fmtTime s
          = (formatPromptText fmtTime p, [Status.processing], s))
    ∧ (s = [] →
        playground_get_prompt fmtTime s
          = ("No pending prompts from playgrounds.", [], s)) := by
  refine ⟨?_, ?_, ?_, ?_⟩
  · cases s <;> rfl
  · cases s <;> rfl
  · rintro p rest rfl
    rfl
  · rintro rfl
    rfl

/-- Witness for C7 at concrete inputs: one pending record, and the empty
store. -/
theorem get_prompt_contract_witness :
    playground_get_prompt (fun _ => "12:00:00") [⟨"p_7_zzz111", "add a footer", "", "/design", 7⟩]
      = ("# Playground Prompt\n\n**Source:** /design\n**Received:** 12:00:00\n\n---\n\nadd a footer",
         [Status.processing], [⟨"p_7_zzz111", "add a footer", "", "/design", 7⟩])
    ∧ playground_get_prompt (fun _ => "12:00:00") []
      = ("No pending prompts from playgrounds.", [], []) := by
  have h1 := (get_prompt_contract (fun _ => "12:00:00")
      [⟨"p_7_zzz111", "add a footer", "", "/design", 7⟩]).2.2.1
      ⟨"p_7_zzz111", "add a footer", "", "/design", 7⟩ [] rfl
  have h2 := (get_prompt_contract (fun _ => "12:00:00") ([] : PromptStore)).2.2.2 rfl
  exact ⟨by rw [h1]; rfl, h2⟩

/-! ## The `playground_watch` tool (`server.ts` lines 219–255)

The tool computes
`timeoutSec = Math.min(typeof args?.timeout_seconds === "number" ? args.timeout_seconds : 300, 600)`
and then polls: while `Date.now() < deadline` it reads
`store.getOldest()`; on a hit it broadcasts `processing`, calls
`store.removeOldest()` and returns the formatted record — all in one
synchronous block, with no `await` between check and removal; on a miss
it `await`s a one-second sleep.  With `deadline = start + timeoutSec*1000`
and each sleep advancing time by exactly the poll interval, the loop body
runs once per elapsed second while `elapsed < timeoutSec`, i.e. exactly
`max timeoutSec 0` times.  Prompts enqueued by the HTTP handler can only
arrive during the sleeps; `arrivals k` lists the records appended to the
store during the `k`-th sleep (in order). -/

/-- The `timeout_seconds` argument as received over MCP: absent, present
but not a number, or a number (modelled as an integer — the claims only
concern integral values). -/
inductive WatchArg where
  | absent
  | notNum
  | num (q : Int)
deriving DecidableEq, Repr

/-- The computed `timeoutSec`. -/
def watchTimeoutSec (arg : WatchArg) : Int :=
  min (match arg with
       | WatchArg.num q => q
       | _ => 300) 600

/-- How many times the poll-loop body runs: once per second while
`Date.now() < deadline`. -/
def watchPolls (arg : WatchArg) : Nat :=
  (watchTimeoutSec arg).toNat

/-- The store contents at the `k`-th poll, given the contents at the
first poll and the arrivals during each sleep. -/
def queueAfter (s : PromptStore) (arrivals : Nat → List PlaygroundPrompt) :
    Nat → PromptStore
  | 0 => s
  | k + 1 => queueAfter (s ++ arrivals 0) (fun i => arrivals (i + 1)) k

/-- The poll loop of `playground_watch`, with the number of remaining
polls as fuel.  Returns (delivered record if any, broadcasts, store when
the call returns).  A successful poll broadcasts `processing`, pops the
front record and stops; an unsuccessful one sleeps, letting the next
batch of arrivals in. -/
def watchLoop : Nat → PromptStore → (Nat → List PlaygroundPrompt) →
    Option PlaygroundPrompt × List Status × PromptStore
  | 0, s, _ => (none, [], s)
  | n + 1, s, arrivals =>
      match PromptStore.getOldest s with
      | some p => (some p, [Status.processing], (PromptStore.removeOldest s).2)
      | none => watchLoop n (s ++ arrivals 0) (fun i => arrivals (i + 1))

/-- The full tool result: the delivered record (`none` on timeout), the
returned text, the broadcasts, and the final store. -/
structure WatchResult where
  delivered : Option PlaygroundPrompt
  text : String
  events : List Status
  store : PromptStore
deriving DecidableEq, Repr

/-- The timeout text of `playground_watch` (the em dash is mojibake in
the source file, reproduced faithfully). -/
def watchTimeoutText : String :=
  "Watch timed out â€” no prompts received. The user may not have clicked \x27Send to Claude\x27 yet."

/-- `playground_watch`. -/
def playground_watch (fmtTime : Nat → String) (arg : WatchArg)
    (s : PromptStore) (arrivals : Nat → List PlaygroundPrompt) : WatchResult :=
  match watchLoop (watchPolls arg) s arrivals with
  | (some p, evs, s') => ⟨some p, formatPromptText fmtTime p, evs, s'⟩
  | (none, evs, s') => ⟨none, watchTimeoutText, evs, s'⟩

theorem queueAfter_nil_succ (arrivals : Nat → List PlaygroundPrompt) (k : Nat) :
    queueAfter [] arrivals (k + 1)
      = queueAfter (arrivals 0) (fun i => arrivals (i + 1)) k := by
  simp [queueAfter]

/-- The poll loop either delivers the front record of the queue as it
stood at some poll `k` (having found the queue empty at every earlier
poll), or times out having found the queue empty at every poll. -/
theorem watchLoop_spec (n : Nat) :
    ∀ (s : PromptStore) (arrivals : Nat → List PlaygroundPrompt),
    (∃ p s₁, ∃ k < n, (∀ j < k, queueAfter s arrivals j = [])
        ∧ queueAfter s arrivals k = p :: s₁
        ∧ watchLoop n s arrivals = (some p, [Status.processing], s₁))
    ∨ ((∀ k < n, queueAfter s arrivals k = [])
        ∧ watchLoop n s arrivals = (none, [], queueAfter s arrivals n)) := by
  induction n with
  | zero =>
    intro s arrivals
    right
    exact ⟨fun k hk => absurd hk (Nat.not_lt_zero k), rfl⟩
  | succ n ih =>
    intro s arrivals
    cases s with
    | cons p rest =>
      left
      refine ⟨p, rest, 0, Nat.succ_pos n, fun j hj => absurd hj (Nat.not_lt_zero j), rfl, ?_⟩
      rfl
    | nil =>
      have hstep : watchLoop (n + 1) [] arrivals
          = watchLoop n (arrivals 0) (fun i => arrivals (i + 1)) := by
        simp [watchLoop, PromptStore.getOldest]
      rcases ih (arrivals 0) (fun i => arrivals (i + 1)) with
        ⟨p, s₁, k, hk, hemp, hfront, heq⟩ | ⟨hemp, heq⟩
      · left
        refine ⟨p, s₁, k + 1, Nat.succ_lt_succ hk, ?_, ?_, ?_⟩
        · intro j hj
          cases j with
          | zero => rfl
          | succ j =>
            rw [queueAfter_nil_succ]
            exact hemp j (Nat.lt_of_succ_lt_succ hj)
        · rw [queueAfter_nil_succ]; exact hfront
        · rw [hstep]; exact heq
      · right
        refine ⟨?_, ?_⟩
        · intro k hk
          cases k with
          | zero => rfl
          | succ k =>
            rw [queueAfter_nil_succ]
            exact hemp k (Nat.lt_of_succ_lt_succ hk)
        · rw [hstep, heq, queueAfter_nil_succ]

/-- Claim C2: the watch contract.  The timeout defaults to 300 seconds
when `timeout_seconds` is absent or not a number and is clamped to a
maximum of 600.  The call has exactly two mutually exclusive outcomes:
either a record became available at some poll before the deadline, in
which case the oldest record of the queue at that moment is popped (the
final store is its tail), a single `processing` status is broadcast, and
the record is returned with its provenance text; or the queue was empty
at every poll up to the deadline, and the call returns the distinguishable
timeout result (`delivered = none`, fixed timeout text, no broadcast). -/
theorem watch_contract (fmtTime : Nat → String) (arg : WatchArg)
    (s : PromptStore) (arrivals : Nat → List PlaygroundPrompt) :
    (watchTimeoutSec WatchArg.absent = 300
      ∧ watchTimeoutSec WatchArg.notNum = 300
      ∧ (∀ q : Int, watchTimeoutSec (WatchArg.num q) = min q 600)
      ∧ watchTimeoutSec arg ≤ 600)
    ∧ ((∃ p s₁, ∃ k < watchPolls arg,
          (∀ j < k, queueAfter s arrivals j = [])
          ∧ queueAfter s arrivals k = p :: s₁
          ∧ playground_watch fmtTime arg s arrivals
              = ⟨some p, formatPromptText fmtTime p, [Status.processing], s₁⟩)
      ∨ ((∀ k < watchPolls arg, queueAfter s arrivals k = [])
          ∧ playground_watch fmtTime arg s arrivals
              = ⟨none, watchTimeoutText, [], queueAfter s arrivals (watchPolls arg)⟩)) := by
  constructor
  · refine ⟨rfl, rfl, fun q => rfl, ?_⟩
    cases arg <;> simp [watchTimeoutSec]
  · rcases watchLoop_spec (watchPolls arg) s arrivals with
      ⟨p, s₁, k, hk, hemp, hfront, heq⟩ | ⟨hemp, heq⟩
    · left
      exact ⟨p, s₁, k, hk, hemp, hfront, by simp [playground_watch, heq]⟩
    · right
      exact ⟨hemp, by simp [playground_watch, heq]⟩

/-- Claim C10: a numeric `timeout_seconds ≤ 0` makes `playground_watch`
return the timeout result immediately — no record is removed, no status
is broadcast, the store is untouched; an absent or non-numeric
`timeout_seconds` is replaced by the default of 300 rather than
rejected. -/
theorem watch_nonpositive_timeout (fmtTime : Nat → String) (q : Int)
    (hq : q ≤ 0) (s : PromptStore) (arrivals : Nat → List PlaygroundPrompt) :
    playground_watch fmtTime (WatchArg.num q) s arrivals
        = ⟨none, watchTimeoutText, [], s⟩
    ∧ watchTimeoutSec WatchArg.absent = 300
    ∧ watchTimeoutSec WatchArg.notNum = 300 := by
  have hpolls : watchPolls (WatchArg.num q) = 0 := by
    have : watchTimeoutSec (WatchArg.num q) ≤ 0 := le_trans (min_le_left q 600) hq
    simpa [watchPolls] using Int.toNat_of_nonpos this
  refine ⟨?_, rfl, rfl⟩
  simp [playground_watch, hpolls, watchLoop]

/-- Witness for C10 at a concrete input: `watch(-5)` against a store
holding one record returns the timeout result at once and leaves the
record in place. -/
theorem watch_nonpositive_timeout_witness :
    playground_watch (fun _ => "12:00:00") (WatchArg.num (-5))
        [⟨"p_7_zzz111", "add a footer", "", "/design", 7⟩] (fun _ => [])
      = ⟨none, watchTimeoutText, [],
         [⟨"p_7_zzz111", "add a footer", "", "/design", 7⟩]⟩ := by
  exact (watch_nonpositive_timeout (fun _ => "12:00:00") (-5) (by decide)
    [⟨"p_7_zzz111", "add a footer", "", "/design", 7⟩] (fun _ => [])).1

/-- Witness for C2 at a concrete input: `watch(1)` against an empty queue
with no arrivals returns the timeout result, obtained from the contract
by eliminating the delivery branch. -/
theorem watch_contract_witness :
    playground_watch (fun _ => "12:00:00") (WatchArg.num 1) [] (fun _ => [])
      = ⟨none, watchTimeoutText, [], []⟩ := by
  have h := (watch_contract (fun _ => "12:00:00") (WatchArg.num 1) [] (fun _ => [])).2
  rcases h with ⟨p, s₁, k, hk, _, hfront, _⟩ | ⟨_, heq⟩
  · have hk0 : k = 0 := by
      have : watchPolls (WatchArg.num 1) = 1 := rfl
      omega
    subst hk0
    simp [queueAfter] at hfront
  · rw [heq]
    rfl

/-! ## Claim C6: at-most-once delivery under concurrent `watch` calls

In `server.ts` the block from `store.getOldest()` through
`store.removeOldest()` to `return` contains no `await`: on the
single-threaded event loop it is one atomic step.  Two concurrent
`playground_watch` calls therefore interleave only at whole-poll
granularity.  We model the two calls as two watchers, each owning a fuel
counter (remaining polls), driven by an arbitrary scheduler; each
scheduler step runs one watcher's atomic poll body. -/

/-- The state of one `watch` call: still polling with some remaining
fuel, finished having received a record, or timed out. -/
inductive WatcherState where
  | running (fuel : Nat)
  | got (p : PlaygroundPrompt)
  | timedOut
deriving DecidableEq, Repr

/-- Whether the watcher has received a record. -/
def WatcherState.isGot : WatcherState → Bool
  | WatcherState.got _ => true
  | _ => false

/-- One atomic poll body: with fuel left, a non-empty store delivers its
front record (check + broadcast + pop, no suspension point in between)
and an empty store costs one sleep; with no fuel left the deadline has
passed and the call times out.  A finished watcher does not move. -/
def pollStep : PromptStore → WatcherState → PromptStore × WatcherState
  | s, WatcherState.running (n + 1) =>
      match s with
      | [] => (s, WatcherState.running n)
      | p :: rest => (rest, WatcherState.got p)
  | s, WatcherState.running 0 => (s, WatcherState.timedOut)
  | s, w => (s, w)

/-- The joint state: the shared store and the two watchers. -/
structure TwoWatch where
  store : PromptStore
  a : WatcherState
  b : WatcherState
deriving DecidableEq, Repr

/-- One scheduler step: `true` runs watcher `a`, `false` runs `b`. -/
def schedStep : Bool → TwoWatch → TwoWatch
  | true, w => ⟨(pollStep w.store w.a).1, (pollStep w.store w.a).2, w.b⟩
  | false, w => ⟨(pollStep w.store w.b).1, w.a, (pollStep w.store w.b).2⟩

/-- Run a whole schedule. -/
def runSched : List Bool → TwoWatch → TwoWatch
  | [], w => w
  | c :: cs, w => runSched cs (schedStep c w)

/-- Number of records a watcher holds (0 or 1). -/
def gotCount : WatcherState → Nat
  | WatcherState.got _ => 1
  | _ => 0

theorem pollStep_conserves (s : PromptStore) (w : WatcherState) :
    (pollStep s w).1.length + gotCount (pollStep s w).2
      = s.length + gotCount w := by
  cases w with
  | running n =>
    cases n with
    | zero => rfl
    | succ n => cases s <;> simp [pollStep, gotCount]
  | got p => rfl
  | timedOut => rfl

theorem pollStep_got_source (s : PromptStore) (w : WatcherState)
    (x : PlaygroundPrompt) (h : (pollStep s w).2 = WatcherState.got x) :
    w = WatcherState.got x ∨ x ∈ s := by
  cases w with
  | running n =>
    cases n with
    | zero => exact absurd h (by simp [pollStep])
    | succ n =>
      cases s with
      | nil => exact absurd h (by simp [pollStep])
      | cons p rest =>
        simp only [pollStep, WatcherState.got.injEq] at h
        right
        rw [← h]
        exact List.mem_cons_self p rest
  | got p => left; simpa [pollStep] using h
  | timedOut => exact absurd h (by simp [pollStep])

theorem pollStep_store_subset (s : PromptStore) (w : WatcherState) :
    ∀ x ∈ (pollStep s w).1, x ∈ s := by
  cases w with
  | running n =>
    cases n with
    | zero => exact fun x hx => hx
    | succ n =>
      cases s with
      | nil => exact fun x hx => hx
      | cons p rest =>
        intro x hx
        simp only [pollStep] at hx
        exact List.mem_cons_of_mem p hx
  | got p => exact fun x hx => hx
  | timedOut => exact fun x hx => hx

theorem runSched_conserves (cs : List Bool) :
    ∀ w : TwoWatch,
    (runSched cs w).store.length + gotCount (runSched cs w).a
        + gotCount (runSched cs w).b
      = w.store.length + gotCount w.a + gotCount w.b := by
  induction cs with
  | nil => intro w; rfl
  | cons c cs ih =>
    intro w
    rw [runSched, ih]
    cases c with
    | true =>
      have h := pollStep_conserves w.store w.a
      simp only [schedStep]
      omega
    | false =>
      have h := pollStep_conserves w.store w.b
      simp only [schedStep]
      omega

theorem runSched_got_source (cs : List Bool) :
    ∀ (w : TwoWatch) (x : PlaygroundPrompt),
    ((runSched cs w).a = WatcherState.got x → w.a = WatcherState.got x ∨ x ∈ w.store)
    ∧ ((runSched cs w).b = WatcherState.got x → w.b = WatcherState.got x ∨ x ∈ w.store) := by
  induction cs with
  | nil => exact fun w x => ⟨fun h => Or.inl h, fun h => Or.inl h⟩
  | cons c cs ih =>
    intro w x
    constructor
    · intro h
      rcases (ih (schedStep c w) x).1 h with ha | hs
      · cases c with
        | true =>
          simp only [schedStep] at ha
          rcases pollStep_got_source w.store w.a x ha with h1 | h1
          · exact Or.inl h1
          · exact Or.inr h1
        | false => exact Or.inl ha
      · cases c with
        | true =>
          simp only [schedStep] at hs
          exact Or.inr (pollStep_store_subset w.store w.a x hs)
        | false =>
          simp only [schedStep] at hs
          exact Or.inr (pollStep_store_subset w.store w.b x hs)
    · intro h
      rcases (ih (schedStep c w) x).2 h with hb | hs
      · cases c with
        | true => exact Or.inl hb
        | false =>
          simp only [schedStep] at hb
          rcases pollStep_got_source w.store w.b x hb with h1 | h1
          · exact Or.inl h1
          · exact Or.inr h1
      · cases c with
        | true =>
          simp only [schedStep] at hs
          exact Or.inr (pollStep_store_subset w.store w.a x hs)
        | false =>
          simp only [schedStep] at hs
          exact Or.inr (pollStep_store_subset w.store w.b x hs)

theorem runSched_keeps_got (cs : List Bool) :
    ∀ (w : TwoWatch) (p : PlaygroundPrompt),
    (w.a = WatcherState.got p → (runSched cs w).a = WatcherState.got p) := by
  induction cs with
  | nil => exact fun w p h => h
  | cons c cs ih =>
    intro w p h
    apply ih
    cases c with
    | true => simp only [schedStep, h, pollStep]
    | false => exact h

/-- Claim C6: at-most-once delivery.  Run two concurrent `watch` calls,
with arbitrary fuels, against a store holding exactly one record `p`,
under an arbitrary scheduler.  Then: the two callers never both hold a
record; any record either caller receives is `p` itself; when one caller
has received it, the other is still polling or has timed out; and the
check-then-pop is one atomic step, so a scheduler that first runs caller
`a` (with fuel left) delivers `p` to `a` immediately and `a` keeps it
forever after, the store being empty from then on. -/
theorem watch_at_most_once (cs : List Bool) (p : PlaygroundPrompt)
    (fa fb : Nat) :
    (¬((runSched cs ⟨[p], WatcherState.running fa, WatcherState.running fb⟩).a.isGot
        ∧ (runSched cs ⟨[p], WatcherState.running fa, WatcherState.running fb⟩).b.isGot))
    ∧ (∀ x, (runSched cs ⟨[p], WatcherState.running fa, WatcherState.running fb⟩).a
          = WatcherState.got x → x = p)
    ∧ (∀ x, (runSched cs ⟨[p], WatcherState.running fa, WatcherState.running fb⟩).b
          = WatcherState.got x → x = p)
    ∧ (0 < fa →
        (runSched (true :: cs) ⟨[p], WatcherState.running fa, WatcherState.running fb⟩).a
          = WatcherState.got p
        ∧ ¬(runSched (true :: cs)
              ⟨[p], WatcherState.running fa, WatcherState.running fb⟩).b.isGot) := by
  set w0 : TwoWatch := ⟨[p], WatcherState.running fa, WatcherState.running fb⟩ with hw0
  have hcons := runSched_conserves cs w0
  have hinit : w0.store.length + gotCount w0.a + gotCount w0.b = 1 := by
    simp [hw0, gotCount]
  refine ⟨?_, ?_, ?_, ?_⟩
  · rintro ⟨ha, hb⟩
    have ha' : gotCount (runSched cs w0).a = 1 := by
      cases h : (runSched cs w0).a <;> simp [h, WatcherState.isGot, gotCount] at ha ⊢
    have hb' : gotCount (runSched cs w0).b = 1 := by
      cases h : (runSched cs w0).b <;> simp [h, WatcherState.isGot, gotCount] at hb ⊢
    omega
  · intro x hx
    rcases (runSched_got_source cs w0 x).1 hx with h | h
    · exact absurd h (by simp [hw0])
    · simpa [hw0] using h
  · intro x hx
    rcases (runSched_got_source cs w0 x).2 hx with h | h
    · exact absurd h (by simp [hw0])
    · simpa [hw0] using h
  · intro hfa
    obtain ⟨k, hk⟩ : ∃ k, fa = k + 1 := ⟨fa - 1, by omega⟩
    have hstep : schedStep true w0 = ⟨[], WatcherState.got p, WatcherState.running fb⟩ := by
      simp [hw0, schedStep, hk, pollStep]
    have hrun : runSched (true :: cs) w0
        = runSched cs ⟨[], WatcherState.got p, WatcherState.running fb⟩ := by
      rw [runSched, hstep]
    constructor
    · rw [hrun]
      exact runSched_keeps_got cs _ p rfl
    · rw [hrun]
      intro hb
      set w1 : TwoWatch := ⟨[], WatcherState.got p, WatcherState.running fb⟩ with hw1
      have hc := runSched_conserves cs w1
      have hinit1 : w1.store.length + gotCount w1.a + gotCount w1.b = 1 := by
        simp [hw1, gotCount]
      have ha1 : (runSched cs w1).a = WatcherState.got p :=
        runSched_keeps_got cs w1 p rfl
      have hb' : gotCount (runSched cs w1).b = 1 := by
        cases h : (runSched cs w1).b <;> simp [h, WatcherState.isGot, gotCount] at hb ⊢
      have ha' : gotCount (runSched cs w1).a = 1 := by simp [ha1, gotCount]
      omega

/-- Witness for C6 at a concrete input: scheduler `[true, false]`, fuels
2 and 3 — caller `a` receives the record, caller `b` does not. -/
theorem watch_at_most_once_witness :
    (runSched (true :: [false])
        ⟨[⟨"p_7_zzz111", "add a footer", "", "/design", 7⟩],
          WatcherState.running 2, WatcherState.running 3⟩).a
      = WatcherState.got ⟨"p_7_zzz111", "add a footer", "", "/design", 7⟩
    ∧ ¬(runSched (true :: [false])
        ⟨[⟨"p_7_zzz111", "add a footer", "", "/design", 7⟩],
          WatcherState.running 2, WatcherState.running 3⟩).b.isGot := by
  exact (watch_at_most_once [false]
    ⟨"p_7_zzz111", "add a footer", "", "/design", 7⟩ 2 3).2.2.2 (by decide)

/-! ## Burst mode (`burst.ts` lines 27–49 and 134–181)

`runClaudeCode` spawns the external agent and always resolves: on the
`close` event it resolves `\x7b success: code === 0 \x7d`, and on the
`error` event (e.g. executable not found) it resolves
`\x7b success: false \x7b` — it never rejects, so `burstLoop`'s `while
(true)` can never terminate through it.  One iteration of `burstLoop`
polls `store.count()`; on `count > 0` it broadcasts `collecting`, holds
the 10-second accumulation window (during which the HTTP handler keeps
enqueuing), snapshots `store.getAll()`, combines all records into one
document, broadcasts `processing`, invokes the agent once, then —
regardless of the agent's outcome — calls `store.clear()` and broadcasts
`done` then `ready`. -/

/-- How the spawned child process ends: its `close` event with an exit
code, or its `error` event (the spawn itself failed). -/
inductive SpawnOutcome where
  | close (code : Int)
  | spawnError (msg : String)
deriving DecidableEq, Repr

/-- The value `runClaudeCode`'s promise resolves with (`success`).  Both
events resolve; nothing rejects. -/
def runClaudeCode : SpawnOutcome → Bool
  | SpawnOutcome.close code => code == 0
  | SpawnOutcome.spawnError _ => false

/-- JavaScript `Array.prototype.join(sep)`. -/
def joinSep (sep : String) : List String → String
  | [] => ""
  | [x] => x
  | x :: y :: xs => x ++ sep ++ joinSep sep (y :: xs)

/-- The labelled pieces of the combined document:
`` `## Prompt ${i + 1} (from ${p.pathname})\n\n${p.prompt}` `` for each
record, with `i` the running index. -/
def burstPieces : List PlaygroundPrompt → Nat → List String
  | [], _ => []
  | p :: rest, i =>
      ("## Prompt " ++ toString (i + 1) ++ " (from " ++ p.pathname ++ ")\n\n"
        ++ p.prompt) :: burstPieces rest (i + 1)

/-- The `combined` document: the pieces joined by `"\n\n---\n\n"`. -/
def burstCombined (ps : List PlaygroundPrompt) : String :=
  joinSep "\n\n---\n\n" (burstPieces ps 0)

/-- The `fullPrompt` handed to the agent. -/
def burstFullPrompt (ps : List PlaygroundPrompt) : String :=
  "You have received " ++ toString ps.length
    ++ " prompt(s) from playground files. Process each one:\n\n"
    ++ burstCombined ps

/-- The observable outcome of one `burstLoop` iteration. -/
structure BurstStepResult where
  invocations : List String
  agentResult : Option Bool
  store : PromptStore
  events : List Status
  loopContinues : Bool
deriving DecidableEq, Repr

/-- One iteration of `burstLoop`: `storeAtPoll` is the store when
`store.count()` is read, `arrivalsWindow` the records the HTTP handler
appends during the 10-second accumulation window, `arrivalsRun` those it
appends while the agent command runs (they are wiped by the unconditional
`store.clear()`). -/
def burstIteration (storeAtPoll arrivalsWindow arrivalsRun : PromptStore)
    (outcome : SpawnOutcome) : BurstStepResult :=
  if storeAtPoll.length > 0 then
    let snapshot := PromptStore.getAll (storeAtPoll ++ arrivalsWindow)
    if snapshot.length > 0 then
      { invocations := [burstFullPrompt snapshot]
        agentResult := some (runClaudeCode outcome)
        store := PromptStore.clear (snapshot ++ arrivalsRun)
        events := [Status.collecting, Status.processing, Status.done, Status.ready]
        loopContinues := true }
    else
      { invocations := []
        agentResult := none
        store := snapshot
        events := [Status.collecting]
        loopContinues := true }
  else
    { invocations := []
      agentResult := none
      store := storeAtPoll
      events := []
      loopContinues := true }

/-- Claim C5: after the agent invocation the queue is cleared and `done`
then `ready` are broadcast, REGARDLESS of the agent's outcome — normal
exit, non-zero exit, or failure to even start the command (the `error`
event resolves `success: false` instead of throwing) — and the loop
continues.  In particular a spawn failure is caught and follows the same
clear/done path. -/
theorem burst_failure_handling (storeAtPoll arrivalsWindow arrivalsRun : PromptStore)
    (outcome : SpawnOutcome) (h : storeAtPoll ≠ []) :
    (burstIteration storeAtPoll arrivalsWindow arrivalsRun outcome).store = []
    ∧ (burstIteration storeAtPoll arrivalsWindow arrivalsRun outcome).events
        = [Status.collecting, Status.processing, Status.done, Status.ready]
    ∧ (burstIteration storeAtPoll arrivalsWindow arrivalsRun outcome).loopContinues = true
    ∧ (∀ msg, runClaudeCode (SpawnOutcome.spawnError msg) = false)
    ∧ (burstIteration storeAtPoll arrivalsWindow arrivalsRun outcome).agentResult
        = some (runClaudeCode outcome) := by
  have hlen : storeAtPoll.length > 0 := List.length_pos.mpr h
  have hsnap : (PromptStore.getAll (storeAtPoll ++ arrivalsWindow)).length > 0 := by
    simp only [PromptStore.getAll, List.length_append]
    omega
  refine ⟨?_, ?_, ?_, fun msg => rfl, ?_⟩ <;>
    simp [burstIteration, hlen, hsnap, PromptStore.clear]

/-- Witness for C5 at a concrete input: one pending record and a spawn
failure (`claude` not found). -/
theorem burst_failure_handling_witness :
    (burstIteration [⟨"p_7_zzz111", "add a footer", "", "/design", 7⟩] [] []
        (SpawnOutcome.spawnError "spawn claude ENOENT")).store = []
    ∧ (burstIteration [⟨"p_7_zzz111", "add a footer", "", "/design", 7⟩] [] []
        (SpawnOutcome.spawnError "spawn claude ENOENT")).events
        = [Status.collecting, Status.processing, Status.done, Status.ready]
    ∧ (burstIteration [⟨"p_7_zzz111", "add a footer", "", "/design", 7⟩] [] []
        (SpawnOutcome.spawnError "spawn claude ENOENT")).loopContinues = true := by
  have h := burst_failure_handling [⟨"p_7_zzz111", "add a footer", "", "/design", 7⟩]
    [] [] (SpawnOutcome.spawnError "spawn claude ENOENT") (by decide)
  exact ⟨h.1, h.2.1, h.2.2.1⟩

/-! ## Claim C8: batch coalescing

We show the combined document really does contain every snapshot record's
text, labelled by its source path, in FIFO order: the document decomposes
as segment after segment, one per record in snapshot order, each segment
carrying `(from <pathname>)` immediately followed by the record's text. -/

/-- `ContainsInOrder ps doc`: `doc` can be split, left to right, into one
segment per record of `ps` (in order), each segment containing the
record's path label immediately followed by its prompt text. -/
inductive ContainsInOrder : List PlaygroundPrompt → String → Prop
  | nil (s : String) : ContainsInOrder [] s
  | cons (p : PlaygroundPrompt) (rest : List PlaygroundPrompt)
      (pre tail : String) :
      ContainsInOrder rest tail →
      ContainsInOrder (p :: rest)
        (pre ++ (" (from " ++ p.pathname ++ ")\n\n" ++ p.prompt) ++ tail)

theorem containsInOrder_pieces (ps : List PlaygroundPrompt) :
    ∀ (i : Nat) (pre : String),
    ContainsInOrder ps (pre ++ joinSep "\n\n---\n\n" (burstPieces ps i)) := by
  induction ps with
  | nil => exact fun i pre => ContainsInOrder.nil _
  | cons p rest ih =>
    intro i pre
    cases rest with
    | nil =>
      have hshape : pre ++ joinSep "\n\n---\n\n" (burstPieces [p] i)
          = (pre ++ ("## Prompt " ++ toString (i + 1)))
            ++ (" (from " ++ p.pathname ++ ")\n\n" ++ p.prompt) ++ "" := by
        simp only [burstPieces, joinSep, String.append_empty, String.append_assoc]
      rw [hshape]
      exact ContainsInOrder.cons p [] _ "" (ContainsInOrder.nil "")
    | cons q rest' =>
      have hshape : pre ++ joinSep "\n\n---\n\n" (burstPieces (p :: q :: rest') i)
          = (pre ++ ("## Prompt " ++ toString (i + 1)))
            ++ (" (from " ++ p.pathname ++ ")\n\n" ++ p.prompt)
            ++ ("\n\n---\n\n" ++ joinSep "\n\n---\n\n" (burstPieces (q :: rest') (i + 1))) := by
        simp only [burstPieces, joinSep, String.append_assoc]
      rw [hshape]
      exact ContainsInOrder.cons p (q :: rest') _ _ (ih (i + 1) "\n\n---\n\n")

/-- Claim C8: batch coalescing.  When the poll finds a non-empty queue,
all prompts pending at the end of the accumulation window (`snapshot`)
go into EXACTLY ONE agent invocation, whose instruction document contains
each record's text labelled by its source path in FIFO (submission)
order, and the queue count is 0 immediately after the batch completes. -/
theorem burst_coalescing (storeAtPoll arrivalsWindow arrivalsRun : PromptStore)
    (outcome : SpawnOutcome) (h : storeAtPoll ≠ []) :
    (burstIteration storeAtPoll arrivalsWindow arrivalsRun outcome).invocations
        = [burstFullPrompt (storeAtPoll ++ arrivalsWindow)]
    ∧ ContainsInOrder (storeAtPoll ++ arrivalsWindow)
        (burstFullPrompt (storeAtPoll ++ arrivalsWindow))
    ∧ PromptStore.count (burstIteration storeAtPoll arrivalsWindow arrivalsRun outcome).store
        = 0 := by
  have hlen : storeAtPoll.length > 0 := List.length_pos.mpr h
  have hsnap : (PromptStore.getAll (storeAtPoll ++ arrivalsWindow)).length > 0 := by
    simp only [PromptStore.getAll, List.length_append]
    omega
  refine ⟨?_, ?_, ?_⟩
  · simp [burstIteration, hlen, hsnap, PromptStore.getAll]
  · exact containsInOrder_pieces (storeAtPoll ++ arrivalsWindow) 0 _
  · simp [burstIteration, hlen, hsnap, PromptStore.clear, PromptStore.count]

/-- Witness for C8 at a concrete input: three prompts pending at the end
of the window (two at the poll, one arriving during the window). -/
theorem burst_coalescing_witness :
    (burstIteration
        [⟨"p_1_aaaaaa", "one", "", "/x", 1⟩, ⟨"p_2_bbbbbb", "two", "", "/y", 2⟩]
        [⟨"p_3_cccccc", "three", "", "/z", 3⟩] [] (SpawnOutcome.close 0)).invocations
      = [burstFullPrompt
          [⟨"p_1_aaaaaa", "one", "", "/x", 1⟩, ⟨"p_2_bbbbbb", "two", "", "/y", 2⟩,
           ⟨"p_3_cccccc", "three", "", "/z", 3⟩]]
    ∧ PromptStore.count (burstIteration
        [⟨"p_1_aaaaaa", "one", "", "/x", 1⟩, ⟨"p_2_bbbbbb", "two", "", "/y", 2⟩]
        [⟨"p_3_cccccc", "three", "", "/z", 3⟩] [] (SpawnOutcome.close 0)).store = 0 := by
  have h := burst_coalescing
    [⟨"p_1_aaaaaa", "one", "", "/x", 1⟩, ⟨"p_2_bbbbbb", "two", "", "/y", 2⟩]
    [⟨"p_3_cccccc", "three", "", "/z", 3⟩] [] (SpawnOutcome.close 0) (by decide)
  exact ⟨h.1, h.2.2⟩

/-! ## Claim C9: id uniqueness

`PromptStore.add` generates
`` id = `p_${Date.now()}_${Math.random().toString(36).slice(2, 8)}` ``
with no collision check: if two calls draw the same millisecond timestamp
and the same 6-character random suffix, the two records share an id.  So
the unconditional claim fails.  What the code does guarantee: the id
determines the `(timestamp, suffix)` pair — the decimal timestamp block
contains no underscore, so the first underscore after `p_` parses the id
unambiguously, and two draws that differ anywhere give distinct ids; and
no store operation ever rewrites the id of an existing record. -/

/-- Claim C9 (counterexample): two enqueues that draw the same
`Date.now()` value and the same `Math.random()` suffix produce two
distinct records carrying the SAME id — the second record's id is not
distinct from the id of a previously created record. -/
theorem id_collision :
    (PromptStore.add ((PromptStore.add [] ⟨"one", "", "/x", 5, "abc123"⟩).2)
        ⟨"two", "", "/y", 5, "abc123"⟩).1.id
      = (PromptStore.add [] ⟨"one", "", "/x", 5, "abc123"⟩).1.id
    ∧ (PromptStore.add ((PromptStore.add [] ⟨"one", "", "/x", 5, "abc123"⟩).2)
        ⟨"two", "", "/y", 5, "abc123"⟩).1
      ≠ (PromptStore.add [] ⟨"one", "", "/x", 5, "abc123"⟩).1 := by
  exact ⟨rfl, by decide⟩

/-- The digit characters of `Nat.repr`, written as a structurally clean
recursion (least significant digit last). -/
def digitsRec (n : Nat) : List Char :=
  if _h : n < 10 then [Nat.digitChar n]
  else digitsRec (n / 10) ++ [Nat.digitChar (n % 10)]
decreasing_by
  exact Nat.div_lt_self (by omega) (by omega)

theorem digitsRec_lt (n : Nat) (h : n < 10) : digitsRec n = [Nat.digitChar n] := by
  rw [digitsRec]
  simp [h]

theorem digitsRec_ge (n : Nat) (h : ¬n < 10) :
    digitsRec n = digitsRec (n / 10) ++ [Nat.digitChar (n % 10)] := by
  rw [digitsRec]
  simp [h]

theorem toDigitsCore_eq_digitsRec :
    ∀ (f n : Nat) (acc : List Char), n < f →
    Nat.toDigitsCore 10 f n acc = digitsRec n ++ acc := by
  intro f
  induction f with
  | zero => intro n acc h; exact absurd h (Nat.not_lt_zero n)
  | succ f ih =>
    intro n acc h
    by_cases hdiv : n / 10 = 0
    · have hn : n < 10 := by omega
      rw [digitsRec]
      simp [Nat.toDigitsCore, hdiv, hn, Nat.mod_eq_of_lt hn]
    · have hn : ¬n < 10 := by
        intro hlt
        exact hdiv (Nat.div_eq_of_lt hlt)
      have hlt : n / 10 < f := by
        have h1 : n / 10 < n := Nat.div_lt_self (by omega) (by omega)
        omega
      rw [digitsRec]
      simp only [Nat.toDigitsCore, hdiv, if_false, hn, dif_neg, not_false_iff]
      rw [ih (n / 10) (Nat.digitChar (n % 10) :: acc) hlt]
      simp

theorem repr_eq_digitsRec (n : Nat) : (Nat.repr n).data = digitsRec n := by
  have h := toDigitsCore_eq_digitsRec (n + 1) n [] (Nat.lt_succ_self n)
  simp only [Nat.repr, Nat.toDigits, h, List.append_nil]
  rfl

theorem digitChar_ne_underscore (n : Nat) (h : n < 10) :
    Nat.digitChar n ≠ '_' := by
  interval_cases n <;> decide

theorem digitChar_inj_lt (a b : Nat) (ha : a < 10) (hb : b < 10)
    (h : Nat.digitChar a = Nat.digitChar b) : a = b := by
  interval_cases a <;> interval_cases b <;> simp_all <;> revert h <;> decide

theorem digitsRec_ne_nil (n : Nat) : digitsRec n ≠ [] := by
  rw [digitsRec]
  by_cases h : n < 10
  · simp [h]
  · simp [h]

theorem digitsRec_no_underscore (n : Nat) : ∀ c ∈ digitsRec n, c ≠ '_' := by
  induction n using Nat.strong_induction_on with
  | _ n ih =>
    rw [digitsRec]
    by_cases h : n < 10
    · simpa [h] using digitChar_ne_underscore n h
    · simp only [h, dif_neg, not_false_iff]
      intro c hc
      rcases List.mem_append.mp hc with h1 | h1
      · exact ih (n / 10) (Nat.div_lt_self (by omega) (by omega)) c h1
      · have : c = Nat.digitChar (n % 10) := by simpa using h1
        rw [this]
        exact digitChar_ne_underscore (n % 10) (Nat.mod_lt n (by omega))

theorem digitsRec_inj : ∀ m n : Nat, digitsRec m = digitsRec n → m = n := by
  intro m
  induction m using Nat.strong_induction_on with
  | _ m ih =>
    intro n h
    by_cases hm : m < 10 <;> by_cases hn : n < 10
    · rw [digitsRec_lt m hm, digitsRec_lt n hn] at h
      exact digitChar_inj_lt m n hm hn (List.singleton_inj.mp h)
    · exfalso
      rw [digitsRec_lt m hm, digitsRec_ge n hn] at h
      have hlen := congrArg List.length h
      have hne := digitsRec_ne_nil (n / 10)
      simp only [List.length_singleton, List.length_append] at hlen
      cases hdr : digitsRec (n / 10) with
      | nil => exact hne hdr
      | cons c cs => rw [hdr] at hlen; simp at hlen
    · exfalso
      rw [digitsRec_ge m hm, digitsRec_lt n hn] at h
      have hlen := congrArg List.length h
      have hne := digitsRec_ne_nil (m / 10)
      simp only [List.length_singleton, List.length_append] at hlen
      cases hdr : digitsRec (m / 10) with
      | nil => exact hne hdr
      | cons c cs => rw [hdr] at hlen; simp at hlen
    · rw [digitsRec_ge m hm, digitsRec_ge n hn] at h
      have hsplit := List.append_inj' h (by simp)
      have hdiv : m / 10 = n / 10 :=
        ih (m / 10) (Nat.div_lt_self (by omega) (by omega)) (n / 10) hsplit.1
      have hmod : m % 10 = n % 10 := by
        have := List.singleton_inj.mp hsplit.2
        exact digitChar_inj_lt (m % 10) (n % 10) (Nat.mod_lt m (by omega))
          (Nat.mod_lt n (by omega)) this
      omega

/-- Splitting a character list at the first underscore is unambiguous
when the part before it is underscore-free. -/
theorem split_at_underscore :
    ∀ (a a' b b' : List Char), '_' ∉ a → '_' ∉ a' →
    a ++ '_' :: b = a' ++ '_' :: b' → a = a' ∧ b = b' := by
  intro a
  induction a with
  | nil =>
    intro a' b b' _ ha' h
    cases a' with
    | nil => simpa using h
    | cons c t =>
      simp only [List.nil_append, List.cons_append, List.cons.injEq] at h
      exact absurd (h.1 ▸ List.mem_cons_self c t) ha'
  | cons c t ih =>
    intro a' b b' ha ha' h
    cases a' with
    | nil =>
      simp only [List.cons_append, List.nil_append, List.cons.injEq] at h
      exact absurd (h.1 ▸ List.mem_cons_self c t) ha
    | cons c' t' =>
      simp only [List.cons_append, List.cons.injEq] at h
      have ht : '_' ∉ t := fun hm => ha (List.mem_cons_of_mem c hm)
      have ht' : '_' ∉ t' := fun hm => ha' (List.mem_cons_of_mem c' hm)
      obtain ⟨h1, h2⟩ := ih t' b b' ht ht' h.2
      exact ⟨by rw [h.1, h1], h2⟩

theorem mkId_inj (n n' : Nat) (r r' : String)
    (h : mkId n r = mkId n' r') : n = n' ∧ r = r' := by
  have hdata := congrArg String.data h
  simp only [mkId, String.data_append] at hdata
  have hds : (toString n).data = (Nat.repr n).data := rfl
  have hds' : (toString n').data = (Nat.repr n').data := rfl
  rw [hds, hds', repr_eq_digitsRec, repr_eq_digitsRec] at hdata
  simp only [List.append_assoc, List.cons_append, List.nil_append,
    List.singleton_append, List.cons.injEq, true_and] at hdata
  have hsplit := split_at_underscore (digitsRec n) (digitsRec n') r.data r'.data
    (fun hm => digitsRec_no_underscore n '_' hm rfl)
    (fun hm => digitsRec_no_underscore n' '_' hm rfl) hdata
  exact ⟨digitsRec_inj n n' hsplit.1, String.ext hsplit.2⟩

/-- Claim C9 (amended): the id assigned by an enqueue is the string
`p_<decimal timestamp>_<random suffix>`, and this string determines the
`(timestamp, suffix)` pair (the decimal block contains no underscore, so
the parse at the first underscore after `p_` is unambiguous): two
enqueues receive distinct ids whenever their `(timestamp, suffix)` draws
differ at all.  With both draws identical the ids collide (see the
counterexample).  Moreover store operations never mutate an id after
assignment: `add` leaves every existing record untouched and appends a
fresh one, and `removeOldest` returns the front record unchanged and
leaves the rest untouched. -/
theorem id_uniqueness_conditional (i j : AddInput)
    (hne : i.now ≠ j.now ∨ i.rand ≠ j.rand) :
    (∀ s s' : PromptStore, (PromptStore.add s i).1.id ≠ (PromptStore.add s' j).1.id)
    ∧ (∀ s : PromptStore, (PromptStore.add s i).2 = s ++ [(PromptStore.add s i).1])
    ∧ (∀ (p : PlaygroundPrompt) (rest : PromptStore),
        PromptStore.removeOldest (p :: rest) = (some p, rest)) := by
  refine ⟨?_, fun s => rfl, fun p rest => rfl⟩
  intro s s' h
  simp only [PromptStore.add, entryOf] at h
  rcases mkId_inj i.now j.now i.rand j.rand h with ⟨h1, h2⟩
  rcases hne with hne | hne
  · exact hne h1
  · exact hne h2

/-- Witness for the amended C9 at concrete inputs: same millisecond, two
different suffixes — the ids differ. -/
theorem id_uniqueness_conditional_witness :
    (PromptStore.add [] ⟨"one", "", "/x", 5, "abc123"⟩).1.id
      ≠ (PromptStore.add [] ⟨"two", "", "/y", 5, "abc124"⟩).1.id := by
  exact (id_uniqueness_conditional ⟨"one", "", "/x", 5, "abc123"⟩
    ⟨"two", "", "/y", 5, "abc124"⟩ (Or.inr (by decide))).1 [] []
